import Mathlib

/-
Verification of the stem420 background job service (src/backend/stem420/run_job.py
with its callers in src/backend/ktv420/server.py).  The Python source is shallowly
embedded: pure string manipulation becomes functions on List Char / String, the
side-effecting pipeline becomes a pure function from an environment (the observable
behaviour of the external tools and of cloud storage) to a record of logs, network
events and an outcome, and the shared `_RunJobState` tracker becomes explicit state
passing.
-/

/- ------------------------------------------------------------------ -/
/- GCS address parsing, embedding `_parse_gcs_path`.                   -/
/- ------------------------------------------------------------------ -/

/-- The characters of the literal scheme marker checked by
`gcs_path.startswith("gs://")`. -/
def gsMarker : List Char := ['g', 's', ':', '/', '/']

/-- Embedding of Python `path.split("/", 1)`: split a character list at the first
slash, returning the part before it and, when a slash exists, the remainder. -/
def splitOnceSlash : List Char → List Char × Option (List Char)
  | [] => ([], none)
  | c :: rest =>
    if c = '/' then ([], some rest)
    else
      let (b, k) := splitOnceSlash rest
      (c :: b, k)

/-- Embedding of the body of `_parse_gcs_path` on character lists: require the
`gs://` marker as a prefix, split the remainder at the first slash into bucket and
blob path (`blob_path` defaults to the empty string when there is no slash), and
reject an empty bucket or empty blob path.  `none` models the raised `ValueError`. -/
def parseGcs (cs : List Char) : Option (List Char × List Char) :=
  if cs.take 5 = gsMarker then
    let (b, kOpt) := splitOnceSlash (cs.drop 5)
    let k := kOpt.getD []
    if b.isEmpty || k.isEmpty then none else some (b, k)
  else none

/-- The message `f"Invalid GCS path: {gcs_path}"` logged and raised by
`_parse_gcs_path`. -/
def invalid_path_log (p : String) : String := "Invalid GCS path: " ++ p

/-- Embedding of `_parse_gcs_path` at the String level; the `Except.error` case
carries the `ValueError` message. -/
def parseGcsPath (s : String) : Except String (String × String) :=
  match parseGcs s.data with
  | some (b, k) => Except.ok (String.mk b, String.mk k)
  | none => Except.error (invalid_path_log s)

/-- Rendering of the spec's description of a malformed blob address: no `gs://`
scheme marker, or an empty bucket segment, or a missing/empty key segment.  This
definition follows the spec's words and is compared with `parseGcs`, which is
translated from the source. -/
def malformed_gcs (a : String) : Bool :=
  let cs := a.data
  if cs.take 5 ≠ gsMarker then true
  else
    let (b, kOpt) := splitOnceSlash (cs.drop 5)
    b.isEmpty || (kOpt.getD []).isEmpty

/- ------------------------------------------------------------------ -/
/- Directory entries and the flattening step of `_run_demucs`.         -/
/- ------------------------------------------------------------------ -/

/-- A directory entry: a regular file (with an abstract content tag) or a
subdirectory with its children.  Models the contents of the demucs output
directory. -/
inductive Entry where
  | file (name : String) (content : Nat)
  | dir (name : String) (children : List Entry)

/-- The file view of an entry, used to model `path.is_file()` selections. -/
def fileOf : Entry → Option (String × Nat)
  | Entry.file n c => some (n, c)
  | Entry.dir _ _ => none

/-- The children of a directory entry, used to model `path.is_dir()` selections. -/
def dirChildren : Entry → Option (List Entry)
  | Entry.dir _ cs => some cs
  | Entry.file _ _ => none

/-- Boolean `is_file` test on an entry. -/
def isFileB : Entry → Bool
  | Entry.file _ _ => true
  | Entry.dir _ _ => false

/-- Names of the regular files in a directory listing. -/
def fileNames : List Entry → List String
  | [] => []
  | Entry.file n _ :: t => n :: fileNames t
  | Entry.dir _ _ :: t => fileNames t

/-- The children lists of the subdirectories in a directory listing
(`[path for path in d.iterdir() if path.is_dir()]`). -/
def dirsChildren (l : List Entry) : List (List Entry) :=
  l.filterMap dirChildren

/-- The files moved by the flattening loop in `_run_demucs`: for every model
directory (subdirectory of the output directory) and every track directory
(subdirectory of the model directory), the regular files directly inside the
track directory, in iteration order.  Files at any other depth are skipped by
the loop and destroyed by the `shutil.rmtree` calls. -/
def movedFiles (l : List Entry) : List (String × Nat) :=
  ((dirsChildren l).map (fun cs =>
    ((dirsChildren cs).map (fun fs => fs.filterMap fileOf)).flatten)).flatten

/-- Embedding of `stem_file.replace(destination)` into the flat output listing:
overwrite the file with the same name when present, otherwise append the file. -/
def setEntryFile (l : List Entry) (n : String) (c : Nat) : List Entry :=
  if l.any (fun e => match e with | Entry.file m _ => m == n | Entry.dir _ _ => false) then
    l.map (fun e => match e with
      | Entry.file m cc => if m == n then Entry.file n c else Entry.file m cc
      | Entry.dir m cs => Entry.dir m cs)
  else l ++ [Entry.file n c]

/-- Embedding of the flattening loop of `_run_demucs` (lines 191-203): every
top-level subdirectory is removed by `shutil.rmtree`, the files two levels down
are moved into the output directory one by one, and top-level regular files are
untouched. -/
def run_demucs_flatten (l : List Entry) : List Entry :=
  (movedFiles l).foldl (fun acc p => setEntryFile acc p.1 p.2) (l.filter isFileB)

/- ------------------------------------------------------------------ -/
/- Path suffix handling used by `_align_and_encode_stems_to_flac`.     -/
/- ------------------------------------------------------------------ -/

/-- Embedding of `pathlib.Path(...).suffix`: the final `"."`-separated extension
including the dot, empty when there is no dot, when the only dot is the leading
character, or when the name ends with a dot. -/
def path_suffix (n : String) : String :=
  let cs := n.data
  let ext := cs.reverse.takeWhile (fun c => c ≠ '.')
  if ext.length = cs.length then ""
  else if ext.length + 1 = cs.length then ""
  else if ext.length = 0 then ""
  else String.mk ('.' :: ext.reverse)

/-- Embedding of `stem_file.suffix.lower() == ".wav"`. -/
def is_wav_name (n : String) : Bool :=
  (path_suffix n).toLower == ".wav"

/-- Embedding of `stem_file.with_suffix(".flac")`: drop the existing suffix and
append `".flac"`. -/
def with_suffix_flac (n : String) : String :=
  String.mk (n.data.take (n.data.length - (path_suffix n).data.length)) ++ ".flac"

/- ------------------------------------------------------------------ -/
/- Sample alignment.                                                   -/
/- ------------------------------------------------------------------ -/

/-- Modelled from the spec: the source's `_force_length_samples` only shells out
to the external transcoder with the filter `apad,atrim=end_sample=ref_samples`;
the filter's semantics are not part of this repository.  Per the spec, `apad`
extends the waveform with silence (zeros) and `atrim` with `end_sample=r` keeps
exactly the first `r` samples, so padding by `r` zeros before truncating is
sufficient. -/
def alignSamples (w : List Int) (r : Nat) : List Int :=
  (w ++ List.replicate r 0).take r

/- ------------------------------------------------------------------ -/
/- Log messages and exception texts.                                   -/
/- ------------------------------------------------------------------ -/

/-- A typed request, embedding the pydantic `Request` model. -/
structure Request where
  mp3_path : String
  output_path : String

/-- The empty acknowledgement, embedding the pydantic `Response` model. -/
structure Response

def process_start_log (req : Request) : String :=
  "run_job.process.start mp3_path=" ++ req.mp3_path ++ " output_path=" ++ req.output_path

def download_start_log (b k : String) : String :=
  "run_job.download.start bucket=" ++ b ++ " blob=" ++ k

def download_done_log : String := "run_job.download.done"

def decode_start_log : String := "run_job.decode.start"

def decode_failed_log (rc : Nat) (out err : String) : String :=
  "run_job.decode.failed returncode=" ++ toString rc ++ " stdout=" ++ out ++ " stderr=" ++ err

def decode_done_log : String := "run_job.decode.done"

def demucs_start_log : String := "run_job.demucs.start"

def demucs_failed_log (rc : Nat) (out err : String) : String :=
  "run_job.demucs.failed returncode=" ++ toString rc ++ " stdout=" ++ out ++ " stderr=" ++ err

def demucs_done_log : String := "run_job.demucs.done"

def align_failed_log (rc : Nat) (out err : String) : String :=
  "run_job.align.failed returncode=" ++ toString rc ++ " stdout=" ++ out ++ " stderr=" ++ err

def encode_flac_failed_log (rc : Nat) (out err : String) : String :=
  "run_job.encode_flac.failed returncode=" ++ toString rc ++ " stdout=" ++ out ++ " stderr=" ++ err

def metadata_written_log (dur refS refR : Nat) : String :=
  "run_job.metadata.written path=_metadata.json processing_duration_s=" ++ toString dur
    ++ " ref_samples=" ++ toString refS ++ " ref_sample_rate=" ++ toString refR

def upload_start_log (b base : String) : String :=
  "run_job.upload.start bucket=" ++ b ++ " base_blob_path=" ++ base

def upload_file_log (b blob : String) : String :=
  "run_job.upload.file -> gs://" ++ b ++ "/" ++ blob

def upload_done_log : String := "run_job.upload.done"

/-- Model of the message of a `subprocess.CalledProcessError` raised for the named
stage with the given exit code. -/
def cpe_msg (stage : String) (rc : Nat) : String :=
  "subprocess.CalledProcessError: " ++ stage ++ " returned non-zero exit status " ++ toString rc

/-- Model of `traceback.format_exc()`: the captured trace text of an exception
carries the exception's message. -/
def tb_text (e : String) : String := "Traceback (most recent call last): " ++ e

/-- Embedding of `os.path.join(base_blob_path, str(relative_path))` for the
slash-separated keys produced by the pipeline. -/
def join_path (b n : String) : String :=
  if b.data = [] then n
  else if b.data.getLast? = some '/' then b ++ n
  else b ++ "/" ++ n

/- ------------------------------------------------------------------ -/
/- The pipeline as a function of the external world's behaviour.       -/
/- ------------------------------------------------------------------ -/

/-- Observable network events of one pipeline execution, plus the metadata write:
`netGet` is the blob download, `netPut` an object upload of the given bucket and
key, `metaWrite` the local write of the metadata document (tracked to order it
against the uploads). -/
inductive Evt where
  | netGet
  | metaWrite
  | netPut (bucket : String) (blob : String)
deriving DecidableEq

/-- The behaviour of everything outside the program during one job: whether the
blob download succeeds, the exit codes and captured output of the external tools
(`ffmpeg` decode, `demucs`, per-stem align and encode invocations, indexed by the
number of stems already processed), the reference WAV header, the directory tree
demucs leaves under its output directory, whether uploads succeed, and the wall
clock duration. -/
structure Env where
  downloadOk : Bool
  downloadErrMsg : String
  decodeRc : Nat
  decodeOut : String
  decodeErr : String
  wavRate : Nat
  wavFrames : Nat
  demucsRc : Nat
  demucsOut : String
  demucsErr : String
  demucsTree : List Entry
  alignRc : Nat → Nat
  alignOut : String
  alignErr : String
  encodeRc : Nat → Nat
  encodeOut : String
  encodeErr : String
  uploadOk : Bool
  uploadErrMsg : String
  duration : Nat

/-- The result of one detached pipeline execution: the log entries it appended,
the events it performed, its outcome (`Except.error` models the exception
escaping to the top-level handler), and the final output directory listing. -/
structure JobRun where
  logs : List String
  events : List Evt
  outcome : Except String Unit
  finalDir : List Entry

/-- Embedding of `_align_and_encode_stems_to_flac`: walk the output directory
snapshot; for each regular `.wav` file run the align invocation then the encode
invocation (their exit codes given by the environment, indexed by the count of
stems processed so far), replacing `name.wav` by `name.flac`; skip directories
and non-wav files, keeping them in place.  A non-zero exit raises, aborting the
remaining stems. -/
def align_and_encode (env : Env) : List Entry → Nat → List String × Except String (List Entry)
  | [], _ => ([], Except.ok [])
  | Entry.dir n cs :: rest, i =>
    let (ls, r) := align_and_encode env rest i
    (ls, r.map (fun out => Entry.dir n cs :: out))
  | Entry.file n c :: rest, i =>
    if is_wav_name n then
      if env.alignRc i ≠ 0 then
        ([align_failed_log (env.alignRc i) env.alignOut env.alignErr],
          Except.error (cpe_msg "ffmpeg align" (env.alignRc i)))
      else if env.encodeRc i ≠ 0 then
        ([encode_flac_failed_log (env.encodeRc i) env.encodeOut env.encodeErr],
          Except.error (cpe_msg "ffmpeg encode_flac" (env.encodeRc i)))
      else
        let (ls, r) := align_and_encode env rest (i + 1)
        (ls, r.map (fun out => Entry.file (with_suffix_flac n) c :: out))
    else
      let (ls, r) := align_and_encode env rest i
      (ls, r.map (fun out => Entry.file n c :: out))

/-- Embedding of the upload loop of `_upload_directory`: walk the (flat, by
construction of the pipeline) output directory, log and upload every regular
file; a transfer failure raises past the remaining files. -/
def upload_loop (env : Env) (bucket base : String) :
    List Entry → List String × List Evt × Except String Unit
  | [] => ([], [], Except.ok ())
  | Entry.dir _ _ :: rest => upload_loop env bucket base rest
  | Entry.file n _ :: rest =>
    let blob := join_path base n
    if env.uploadOk then
      let (ls, es, r) := upload_loop env bucket base rest
      (upload_file_log bucket blob :: ls, Evt.netPut bucket blob :: es, r)
    else ([upload_file_log bucket blob], [], Except.error env.uploadErrMsg)

/-- Embedding of `_upload_directory`: parse the destination address (failing fast
before any upload), then upload every file. -/
def upload_phase (env : Env) (req : Request) (dir2 : List Entry) : JobRun :=
  match parseGcsPath req.output_path with
  | Except.error m => { logs := [m], events := [], outcome := Except.error m, finalDir := dir2 }
  | Except.ok (ub, ubase) =>
    let (uls, ues, ur) := upload_loop env ub ubase dir2
    match ur with
    | Except.error e =>
      { logs := upload_start_log ub ubase :: uls, events := ues,
        outcome := Except.error e, finalDir := dir2 }
    | Except.ok _ =>
      { logs := upload_start_log ub ubase :: (uls ++ [upload_done_log]), events := ues,
        outcome := Except.ok (), finalDir := dir2 }

/-- The tail of the pipeline after a successful separation: align and encode each
stem, write the metadata document into the output directory, then upload. -/
def pipeline_tail (env : Env) (req : Request) (d : List Entry) : JobRun :=
  match align_and_encode env d 0 with
  | (als, Except.error e) => { logs := als, events := [], outcome := Except.error e, finalDir := [] }
  | (als, Except.ok d1) =>
    let d2 := setEntryFile d1 "_metadata.json" 0
    let u := upload_phase env req d2
    { logs := als ++ metadata_written_log env.duration env.wavFrames env.wavRate :: u.logs,
      events := Evt.metaWrite :: u.events,
      outcome := u.outcome, finalDir := u.finalDir }

/-- Embedding of the `try` body of `_process_request`: download (address parse
first, failing fast), decode to the reference WAV, read its header, run demucs
and flatten its output, then the `pipeline_tail` stages.  The first failure
short-circuits every remaining stage. -/
def runPipelinePure (env : Env) (req : Request) : JobRun :=
  match parseGcsPath req.mp3_path with
  | Except.error m => { logs := [m], events := [], outcome := Except.error m, finalDir := [] }
  | Except.ok (b, k) =>
    if env.downloadOk then
      if env.decodeRc = 0 then
        if env.demucsRc = 0 then
          let t := pipeline_tail env req (run_demucs_flatten env.demucsTree)
          { logs := [download_start_log b k, download_done_log, decode_start_log,
              decode_done_log, demucs_start_log, demucs_done_log] ++ t.logs,
            events := Evt.netGet :: t.events, outcome := t.outcome, finalDir := t.finalDir }
        else
          { logs := [download_start_log b k, download_done_log, decode_start_log,
              decode_done_log, demucs_start_log,
              demucs_failed_log env.demucsRc env.demucsOut env.demucsErr],
            events := [Evt.netGet],
            outcome := Except.error (cpe_msg "demucs" env.demucsRc), finalDir := [] }
      else
        { logs := [download_start_log b k, download_done_log, decode_start_log,
            decode_failed_log env.decodeRc env.decodeOut env.decodeErr],
          events := [Evt.netGet],
          outcome := Except.error (cpe_msg "ffmpeg decode" env.decodeRc), finalDir := [] }
    else
      { logs := [download_start_log b k], events := [Evt.netGet],
        outcome := Except.error env.downloadErrMsg, finalDir := [] }

/- ------------------------------------------------------------------ -/
/- The shared job state and the lifecycle entry points.                -/
/- ------------------------------------------------------------------ -/

/-- The observable system state: the `_RunJobState` tracker fields (`logs`,
`started_jobs`, `finished_jobs`) plus instrumentation for the claims — the
sequence of network/metadata events performed so far, the set of live scratch
directories, and a fresh-name counter for `TemporaryDirectory`. -/
structure SysState where
  logs : List String
  started_jobs : Nat
  finished_jobs : Nat
  trace : List Evt
  scratchDirs : List Nat
  nextTmp : Nat

/-- Embedding of `_RunJobState.log` (append-only log sequence). -/
def SysState.log (s : SysState) (m : String) : SysState := { s with logs := s.logs ++ [m] }

/-- Embedding of `_RunJobState.mark_started`. -/
def SysState.mark_started (s : SysState) : SysState :=
  { s with started_jobs := s.started_jobs + 1 }

/-- Embedding of `_RunJobState.mark_finished`. -/
def SysState.mark_finished (s : SysState) : SysState :=
  { s with finished_jobs := s.finished_jobs + 1 }

/-- Embedding of `_RunJobState.state`: consistent snapshot of logs and counters. -/
def SysState.state (s : SysState) : List String × Nat × Nat :=
  (s.logs, s.started_jobs, s.finished_jobs)

/-- Embedding of `_process_request`: log the start line, enter the
`TemporaryDirectory` (allocating a fresh scratch directory), run the pipeline
body, tear the scratch directory down unconditionally, convert the outcome into
a success log or an error log plus captured traceback, and finally mark the job
finished.  The function is total: no outcome escapes it. -/
def processRequest (env : Env) (req : Request) (s : SysState) : SysState :=
  let s1 := s.log (process_start_log req)
  let tmpId := s1.nextTmp
  let s2 := { s1 with scratchDirs := tmpId :: s1.scratchDirs, nextTmp := s1.nextTmp + 1 }
  let r := runPipelinePure env req
  let s3 := { s2 with logs := s2.logs ++ r.logs, trace := s2.trace ++ r.events }
  let s4 := { s3 with scratchDirs := s3.scratchDirs.filter (fun d => d != tmpId) }
  let s5 := match r.outcome with
    | Except.error e => (s4.log "run_job.process.error").log (tb_text e)
    | Except.ok _ => s4.log "run_job.process.success"
  s5.mark_finished

/-- Embedding of `run_job`: the acceptance path marks the job started, logs, and
returns the empty acknowledgement; the pipeline itself is detached onto a
background thread. -/
def runJobAccept (s : SysState) : SysState × Response :=
  let s1 := s.mark_started
  let s2 := s1.log "run_job.start"
  let s3 := s2.log "run_job.spawned_background_thread"
  (s3, Response.mk)

/-- One accepted job run to completion: the acceptance path of `run_job`
followed by the detached `_process_request` execution. -/
def runJobFull (env : Env) (req : Request) (s : SysState) : SysState :=
  processRequest env req (runJobAccept s).1

/-- Embedding of `get_state`. -/
def get_state (s : SysState) : List String × Nat × Nat := s.state

/- ------------------------------------------------------------------ -/
/- The job state tracker under interleaved job lifecycles.             -/
/- ------------------------------------------------------------------ -/

/-- The `_RunJobState` tracker by itself (logs and the two counters). -/
structure RunJobState where
  logs : List String
  started_jobs : Nat
  finished_jobs : Nat

def RunJobState.init : RunJobState := { logs := [], started_jobs := 0, finished_jobs := 0 }

def RunJobState.log (s : RunJobState) (m : String) : RunJobState :=
  { s with logs := s.logs ++ [m] }

def RunJobState.mark_started (s : RunJobState) : RunJobState :=
  { s with started_jobs := s.started_jobs + 1 }

def RunJobState.mark_finished (s : RunJobState) : RunJobState :=
  { s with finished_jobs := s.finished_jobs + 1 }

/-- One tracker operation observed in a global interleaving: job `j` is accepted
(`run_job` calls `mark_started`), job `j`'s detached pipeline ends
(`_process_request`'s finally block calls `mark_finished`), or some job appends
a log entry. -/
inductive JobEvt where
  | start (j : Nat)
  | finish (j : Nat)
  | log (m : String)
deriving DecidableEq

/-- Apply one tracker operation. -/
def applyEvt (s : RunJobState) : JobEvt → RunJobState
  | JobEvt.start _ => s.mark_started
  | JobEvt.finish _ => s.mark_finished
  | JobEvt.log m => s.log m

/-- The tracker state after a sequence of operations, from the freshly
constructed `_RunJobState`. -/
def trackerOf (t : List JobEvt) : RunJobState := t.foldl applyEvt RunJobState.init

/-- Job identifiers of the finish events of a trace, in order. -/
def finishIds : List JobEvt → List Nat
  | [] => []
  | JobEvt.finish j :: t => j :: finishIds t
  | _ :: t => finishIds t

/-- Job identifiers of the start events of a trace, in order. -/
def startIds : List JobEvt → List Nat
  | [] => []
  | JobEvt.start j :: t => j :: startIds t
  | _ :: t => startIds t

/-- The system's lifecycle, as the claim states it: each accepted job increments
`started_jobs` exactly once at acceptance and `finished_jobs` exactly once when
its pipeline execution ends, and a job's finish can only be observed after its
acceptance (in every prefix of the interleaving, a finish of job `j` is preceded
by the start of job `j`). -/
def ValidLifecycle (t : List JobEvt) : Prop :=
  (∀ j, t.count (JobEvt.start j) ≤ 1) ∧
  (∀ j, t.count (JobEvt.finish j) ≤ 1) ∧
  (∀ n j, JobEvt.finish j ∈ t.take n → JobEvt.start j ∈ t.take n)

/- ------------------------------------------------------------------ -/
/- Concrete sample inputs used by the witnesses.                       -/
/- ------------------------------------------------------------------ -/

/-- An environment in which every external step succeeds and demucs produces no
stems. -/
def sampleEnvOk : Env :=
  { downloadOk := true, downloadErrMsg := "requests.exceptions.ConnectionError",
    decodeRc := 0, decodeOut := "", decodeErr := "",
    wavRate := 44100, wavFrames := 44100,
    demucsRc := 0, demucsOut := "", demucsErr := "", demucsTree := [],
    alignRc := fun _ => 0, alignOut := "", alignErr := "",
    encodeRc := fun _ => 0, encodeOut := "", encodeErr := "",
    uploadOk := true, uploadErrMsg := "google.api_core.exceptions.GoogleAPIError",
    duration := 1 }

/-- The same environment except that demucs exits with code 1. -/
def sampleEnvDemucsFail : Env := { sampleEnvOk with demucsRc := 1 }

def sampleReq : Request := { mp3_path := "gs://bucket/in.mp3", output_path := "gs://bucket/out" }

/-- A request whose source address has no scheme marker. -/
def sampleReqBad : Request := { mp3_path := "nope", output_path := "gs://bucket/out" }

/-- A request whose source address is fine but whose destination address is
malformed. -/
def sampleReqBadOut : Request := { mp3_path := "gs://bucket/in.mp3", output_path := "bad" }

def initState : SysState :=
  { logs := [], started_jobs := 0, finished_jobs := 0, trace := [], scratchDirs := [],
    nextTmp := 0 }

/- ------------------------------------------------------------------ -/
/- Helper lemmas: address parsing.                                     -/
/- ------------------------------------------------------------------ -/

/-- The parser `parseGcs` rejects exactly the malformed addresses. -/
lemma parseGcs_none_iff (a : String) : parseGcs a.data = none ↔ malformed_gcs a = true := by
  unfold parseGcs malformed_gcs
  by_cases h5 : a.data.take 5 = gsMarker
  · rcases hsp : splitOnceSlash (a.data.drop 5) with ⟨b, kOpt⟩
    by_cases hbe : (b.isEmpty || (kOpt.getD []).isEmpty) = true <;>
      simp [h5, hsp, hbe]
  · simp [h5]

/-- The parser `parseGcsPath` errors exactly on the malformed addresses. -/
lemma parseGcsPath_error_iff (a : String) :
    (∃ m, parseGcsPath a = Except.error m) ↔ malformed_gcs a = true := by
  rw [← parseGcs_none_iff]
  unfold parseGcsPath
  rcases h : parseGcs a.data with _ | ⟨b, k⟩ <;> simp [h]

/-- On a malformed address, `parseGcsPath` errors with the logged message. -/
lemma parseGcsPath_error_of_malformed (a : String) (h : malformed_gcs a = true) :
    parseGcsPath a = Except.error (invalid_path_log a) := by
  have hn : parseGcs a.data = none := (parseGcs_none_iff a).mpr h
  unfold parseGcsPath
  rw [hn]

/-- Splitting at the first slash of `b ++ '/' :: k` recovers `b` and `k` when `b`
is slash-free. -/
lemma splitOnceSlash_append (b k : List Char) (hb : ('/' : Char) ∉ b) :
    splitOnceSlash (b ++ '/' :: k) = (b, some k) := by
  induction b with
  | nil => simp [splitOnceSlash]
  | cons c cs ih =>
    have hc : c ≠ '/' := fun h => hb (h ▸ List.mem_cons_self c cs)
    have hcs : ('/' : Char) ∉ cs := fun h => hb (List.mem_cons_of_mem c h)
    have h2 : splitOnceSlash (cs.append ('/' :: k)) = (cs, some k) := ih hcs
    simp only [List.cons_append, splitOnceSlash]
    rw [if_neg (fun h => hc h), h2]

/-- Every well-formed address `gs://bucket/key` with a non-empty slash-free
bucket and non-empty key is accepted and split into that bucket and key. -/
lemma parseGcs_wellformed (b k : List Char) (hb : b ≠ []) (hk : k ≠ [])
    (hs : ('/' : Char) ∉ b) :
    parseGcs (gsMarker ++ (b ++ '/' :: k)) = some (b, k) := by
  unfold parseGcs
  have h5 : (gsMarker ++ (b ++ '/' :: k)).take 5 = gsMarker :=
    List.take_left' rfl
  have hd : (gsMarker ++ (b ++ '/' :: k)).drop 5 = b ++ '/' :: k :=
    List.drop_left' rfl
  rw [h5, hd, if_pos rfl, splitOnceSlash_append b k hs]
  simp [List.isEmpty_iff, hb, hk]

/- ------------------------------------------------------------------ -/
/- Helper lemmas: flattening.                                          -/
/- ------------------------------------------------------------------ -/

lemma fileNames_append (a b : List Entry) : fileNames (a ++ b) = fileNames a ++ fileNames b := by
  induction a with
  | nil => rfl
  | cons e t ih => cases e <;> simp [fileNames, ih]

lemma mem_fileNames (l : List Entry) (n : String) :
    n ∈ fileNames l ↔ ∃ c, Entry.file n c ∈ l := by
  induction l with
  | nil => simp [fileNames]
  | cons e t ih => cases e <;> simp [fileNames, ih] <;> aesop

lemma fileNames_filter (l : List Entry) : fileNames (l.filter isFileB) = fileNames l := by
  induction l with
  | nil => rfl
  | cons e t ih => cases e <;> simp [fileNames, isFileB, List.filter_cons, ih]

/-- Moving a file whose name is fresh appends it to the listing. -/
lemma setEntryFile_fresh (acc : List Entry) (n : String) (c : Nat)
    (h : n ∉ fileNames acc) : setEntryFile acc n c = acc ++ [Entry.file n c] := by
  unfold setEntryFile
  rw [if_neg]
  intro hany
  rcases List.any_eq_true.mp hany with ⟨e, he, hp⟩
  cases e with
  | file m cc =>
    have hm : m = n := by simpa using hp
    subst hm
    exact h ((mem_fileNames acc m).mpr ⟨cc, he⟩)
  | dir m cs => simp at hp

/-- Folding fresh-named moves over a listing appends them in order. -/
lemma foldl_setEntryFile_fresh :
    ∀ (ms : List (String × Nat)) (acc : List Entry),
      (fileNames acc ++ ms.map Prod.fst).Nodup →
      ms.foldl (fun a p => setEntryFile a p.1 p.2) acc
        = acc ++ ms.map (fun p => Entry.file p.1 p.2) := by
  intro ms
  induction ms with
  | nil => intro acc _; simp
  | cons p ms ih =>
    intro acc hnd
    rcases p with ⟨n, c⟩
    have hnd' : (fileNames acc ++ n :: ms.map Prod.fst).Nodup := by simpa using hnd
    have hn : n ∉ fileNames acc := by
      rcases List.nodup_append.mp hnd' with ⟨_, _, hdisj⟩
      exact fun h => hdisj h (List.mem_cons_self _ _)
    have hrec : (fileNames (acc ++ [Entry.file n c]) ++ ms.map Prod.fst).Nodup := by
      rw [fileNames_append]
      have : fileNames [Entry.file n c] = [n] := rfl
      rw [this, List.append_assoc]
      simpa using hnd'
    calc (ms.foldl (fun a p => setEntryFile a p.1 p.2) (setEntryFile acc n c))
        = ms.foldl (fun a p => setEntryFile a p.1 p.2) (acc ++ [Entry.file n c]) := by
          rw [setEntryFile_fresh acc n c hn]
      _ = (acc ++ [Entry.file n c]) ++ ms.map (fun p => Entry.file p.1 p.2) := ih _ hrec
      _ = acc ++ ((n, c) :: ms).map (fun p => Entry.file p.1 p.2) := by simp

/-- Moving files preserves the all-regular-files property of a listing. -/
lemma foldl_setEntryFile_files :
    ∀ (ms : List (String × Nat)) (acc : List Entry),
      (∀ e ∈ acc, isFileB e = true) →
      ∀ e ∈ ms.foldl (fun a p => setEntryFile a p.1 p.2) acc, isFileB e = true := by
  intro ms
  induction ms with
  | nil => intro acc h; simpa using h
  | cons p ms ih =>
    intro acc h
    have hstep : ∀ e ∈ setEntryFile acc p.1 p.2, isFileB e = true := by
      intro e he
      unfold setEntryFile at he
      by_cases hc : acc.any (fun e => match e with
          | Entry.file m _ => m == p.1 | Entry.dir _ _ => false) = true
      · rw [if_pos hc] at he
        rcases List.mem_map.mp he with ⟨e0, he0, heq⟩
        have hf := h e0 he0
        cases e0 with
        | file m cc =>
          by_cases hm : (m == p.1) = true <;> simp [hm] at heq <;> subst heq <;> rfl
        | dir m cs => simp [isFileB] at hf
      · rw [if_neg hc] at he
        rcases List.mem_append.mp he with h1 | h1
        · exact h e h1
        · have he2 : e = Entry.file p.1 p.2 := by simpa using h1
          subst he2; rfl
    show ∀ e ∈ ms.foldl (fun a p => setEntryFile a p.1 p.2) (setEntryFile acc p.1 p.2),
      isFileB e = true
    exact ih _ hstep

/-- An all-files listing has no directories to descend into. -/
lemma movedFiles_of_flat (l : List Entry) (h : ∀ e ∈ l, isFileB e = true) :
    movedFiles l = [] := by
  unfold movedFiles dirsChildren
  have : l.filterMap dirChildren = [] := by
    rw [List.filterMap_eq_nil_iff]
    intro e he
    cases e with
    | file n c => rfl
    | dir n cs =>
      have hf := h (Entry.dir n cs) he
      simp [isFileB] at hf
  rw [this]
  rfl

/-- Flattening an already-flat listing changes nothing. -/
lemma run_demucs_flatten_of_flat (l : List Entry) (h : ∀ e ∈ l, isFileB e = true) :
    run_demucs_flatten l = l := by
  unfold run_demucs_flatten
  rw [movedFiles_of_flat l h, List.filter_eq_self.mpr h]
  rfl

/-- The flattening result contains only regular files. -/
lemma run_demucs_flatten_all_files (l : List Entry) :
    ∀ e ∈ run_demucs_flatten l, isFileB e = true := by
  unfold run_demucs_flatten
  apply foldl_setEntryFile_files
  intro e he
  exact (List.mem_filter.mp he).2

/- ------------------------------------------------------------------ -/
/- Helper lemmas: pipeline branch shapes.                              -/
/- ------------------------------------------------------------------ -/

lemma rpp_parse_error (env : Env) (req : Request) (m : String)
    (h : parseGcsPath req.mp3_path = Except.error m) :
    runPipelinePure env req
      = { logs := [m], events := [], outcome := Except.error m, finalDir := [] } := by
  unfold runPipelinePure
  rw [h]

lemma rpp_download_fail (env : Env) (req : Request) (b k : String)
    (h : parseGcsPath req.mp3_path = Except.ok (b, k)) (hd : env.downloadOk = false) :
    runPipelinePure env req
      = { logs := [download_start_log b k], events := [Evt.netGet],
          outcome := Except.error env.downloadErrMsg, finalDir := [] } := by
  unfold runPipelinePure
  rw [h]
  simp [hd]

lemma rpp_decode_fail (env : Env) (req : Request) (b k : String)
    (h : parseGcsPath req.mp3_path = Except.ok (b, k)) (hd : env.downloadOk = true)
    (hc : env.decodeRc ≠ 0) :
    runPipelinePure env req
      = { logs := [download_start_log b k, download_done_log, decode_start_log,
            decode_failed_log env.decodeRc env.decodeOut env.decodeErr],
          events := [Evt.netGet],
          outcome := Except.error (cpe_msg "ffmpeg decode" env.decodeRc), finalDir := [] } := by
  unfold runPipelinePure
  rw [h]
  simp [hd, hc]

lemma rpp_demucs_fail (env : Env) (req : Request) (b k : String)
    (h : parseGcsPath req.mp3_path = Except.ok (b, k)) (hd : env.downloadOk = true)
    (hc : env.decodeRc = 0) (hm : env.demucsRc ≠ 0) :
    runPipelinePure env req
      = { logs := [download_start_log b k, download_done_log, decode_start_log,
            decode_done_log, demucs_start_log,
            demucs_failed_log env.demucsRc env.demucsOut env.demucsErr],
          events := [Evt.netGet],
          outcome := Except.error (cpe_msg "demucs" env.demucsRc), finalDir := [] } := by
  unfold runPipelinePure
  rw [h]
  simp [hd, hc, hm]

lemma rpp_demucs_ok (env : Env) (req : Request) (b k : String)
    (h : parseGcsPath req.mp3_path = Except.ok (b, k)) (hd : env.downloadOk = true)
    (hc : env.decodeRc = 0) (hm : env.demucsRc = 0) :
    runPipelinePure env req
      = { logs := [download_start_log b k, download_done_log, decode_start_log,
            decode_done_log, demucs_start_log, demucs_done_log]
            ++ (pipeline_tail env req (run_demucs_flatten env.demucsTree)).logs,
          events := Evt.netGet :: (pipeline_tail env req (run_demucs_flatten env.demucsTree)).events,
          outcome := (pipeline_tail env req (run_demucs_flatten env.demucsTree)).outcome,
          finalDir := (pipeline_tail env req (run_demucs_flatten env.demucsTree)).finalDir } := by
  unfold runPipelinePure
  rw [h]
  simp [hd, hc, hm]

/- ------------------------------------------------------------------ -/
/- Helper lemmas: `processRequest`.                                    -/
/- ------------------------------------------------------------------ -/

lemma processRequest_started (env : Env) (req : Request) (s : SysState) :
    (processRequest env req s).started_jobs = s.started_jobs := by
  unfold processRequest
  cases h : (runPipelinePure env req).outcome <;>
    simp [h, SysState.log, SysState.mark_finished]

lemma processRequest_finished (env : Env) (req : Request) (s : SysState) :
    (processRequest env req s).finished_jobs = s.finished_jobs + 1 := by
  unfold processRequest
  cases h : (runPipelinePure env req).outcome <;>
    simp [h, SysState.log, SysState.mark_finished]

lemma processRequest_trace (env : Env) (req : Request) (s : SysState) :
    (processRequest env req s).trace = s.trace ++ (runPipelinePure env req).events := by
  unfold processRequest
  cases h : (runPipelinePure env req).outcome <;>
    simp [h, SysState.log, SysState.mark_finished]

lemma processRequest_scratch (env : Env) (req : Request) (s : SysState) :
    (processRequest env req s).scratchDirs
      = (s.nextTmp :: s.scratchDirs).filter (fun d => d != s.nextTmp) := by
  unfold processRequest
  cases h : (runPipelinePure env req).outcome <;>
    simp [h, SysState.log, SysState.mark_finished]

lemma processRequest_logs_error (env : Env) (req : Request) (s : SysState) (e : String)
    (h : (runPipelinePure env req).outcome = Except.error e) :
    (processRequest env req s).logs
      = s.logs ++ process_start_log req :: ((runPipelinePure env req).logs
          ++ ["run_job.process.error", tb_text e]) := by
  unfold processRequest
  simp [h, SysState.log, SysState.mark_finished]

lemma processRequest_logs_ok (env : Env) (req : Request) (s : SysState)
    (h : (runPipelinePure env req).outcome = Except.ok ()) :
    (processRequest env req s).logs
      = s.logs ++ process_start_log req :: ((runPipelinePure env req).logs
          ++ ["run_job.process.success"]) := by
  unfold processRequest
  simp [h, SysState.log, SysState.mark_finished]

/- ------------------------------------------------------------------ -/
/- Helper lemmas: event ordering within one pipeline run.              -/
/- ------------------------------------------------------------------ -/

/-- The upload loop performs only `netPut` events: never a metadata write. -/
lemma upload_loop_no_meta (env : Env) (bu base : String) :
    ∀ l : List Entry, Evt.metaWrite ∉ (upload_loop env bu base l).2.1 := by
  intro l
  induction l with
  | nil => simp [upload_loop]
  | cons e rest ih =>
    cases e with
    | dir n cs => simpa [upload_loop] using ih
    | file n c =>
      by_cases hu : env.uploadOk = true
      · rcases hrec : upload_loop env bu base rest with ⟨ls, es, r⟩
        rw [hrec] at ih
        simp [upload_loop, hu, hrec]
        exact ih
      · simp [upload_loop, hu]

/-- The upload phase never writes metadata. -/
lemma upload_phase_no_meta (env : Env) (req : Request) (d : List Entry) :
    Evt.metaWrite ∉ (upload_phase env req d).events := by
  unfold upload_phase
  rcases hp : parseGcsPath req.output_path with m | ⟨ub, ubase⟩
  · simp
  · have h := upload_loop_no_meta env ub ubase d
    rcases hu : upload_loop env ub ubase d with ⟨uls, ues, ur⟩
    rw [hu] at h
    cases ur <;> simp [hu] <;> simpa using h

/-- A decomposition around `metaWrite` of an event list that contains no
`metaWrite` is impossible, so nothing precedes the metadata write there. -/
lemma no_meta_decomp (l : List Evt) (hm : Evt.metaWrite ∉ l) :
    ∀ pre post, l = pre ++ Evt.metaWrite :: post → ∀ bu bl, Evt.netPut bu bl ∉ pre := by
  intro pre post he bu bl _
  exact absurd (by rw [he]; exact List.mem_append_right pre (List.mem_cons_self _ _)) hm

/-- In an event list of the shape `netGet :: metaWrite :: rest` with no further
metadata write, everything before the metadata write is the single download:
no upload precedes the metadata write. -/
lemma meta_head_decomp (rest : List Evt) (hm : Evt.metaWrite ∉ rest) :
    ∀ pre post, Evt.netGet :: Evt.metaWrite :: rest = pre ++ Evt.metaWrite :: post →
      ∀ bu bl, Evt.netPut bu bl ∉ pre := by
  intro pre post he bu bl hmem
  cases pre with
  | nil => simp at hmem
  | cons a pre1 =>
    rw [List.cons_append] at he
    injection he with h1 h2
    cases pre1 with
    | nil =>
      subst h1
      simp at hmem
    | cons b pre2 =>
      rw [List.cons_append] at h2
      injection h2 with h3 h4
      exact hm (by rw [h4]; exact List.mem_append_right pre2 (List.mem_cons_self _ _))

/- ------------------------------------------------------------------ -/
/- Helper lemmas: the tracker under interleaved lifecycles.            -/
/- ------------------------------------------------------------------ -/

lemma foldl_applyEvt_finished (t : List JobEvt) :
    ∀ s : RunJobState, (t.foldl applyEvt s).finished_jobs
      = s.finished_jobs + (finishIds t).length := by
  induction t with
  | nil => intro s; simp [finishIds]
  | cons e t ih =>
    intro s
    cases e <;>
      simp [finishIds, applyEvt, RunJobState.mark_started, RunJobState.mark_finished,
        RunJobState.log, ih] <;> omega

lemma foldl_applyEvt_started (t : List JobEvt) :
    ∀ s : RunJobState, (t.foldl applyEvt s).started_jobs
      = s.started_jobs + (startIds t).length := by
  induction t with
  | nil => intro s; simp [startIds]
  | cons e t ih =>
    intro s
    cases e <;>
      simp [startIds, applyEvt, RunJobState.mark_started, RunJobState.mark_finished,
        RunJobState.log, ih] <;> omega

lemma count_finishIds (t : List JobEvt) (j : Nat) :
    (finishIds t).count j = t.count (JobEvt.finish j) := by
  induction t with
  | nil => simp [finishIds]
  | cons e t ih => cases e <;> simp [finishIds, List.count_cons, ih]

lemma mem_finishIds (t : List JobEvt) (j : Nat) :
    j ∈ finishIds t ↔ JobEvt.finish j ∈ t := by
  induction t with
  | nil => simp [finishIds]
  | cons e t ih => cases e <;> simp [finishIds, ih]

lemma mem_startIds (t : List JobEvt) (j : Nat) :
    j ∈ startIds t ↔ JobEvt.start j ∈ t := by
  induction t with
  | nil => simp [startIds]
  | cons e t ih => cases e <;> simp [startIds, ih]

/- ------------------------------------------------------------------ -/
/- Claims.                                                             -/
/- ------------------------------------------------------------------ -/

/-- C3 counterexample: a file produced directly inside a single tool-specific
subdirectory (nesting depth one below the output directory) is not moved into
the output directory by the flattening step — it is destroyed together with the
subdirectory, so the resulting flat contents are not independent of the nesting
depth. -/
theorem claim_C3_counterexample :
    run_demucs_flatten [Entry.dir "model" [Entry.file "song.wav" 7]] = []
    ∧ Entry.file "song.wav" 7 ∉
        run_demucs_flatten [Entry.dir "model" [Entry.file "song.wav" 7]] := by
  have h : run_demucs_flatten [Entry.dir "model" [Entry.file "song.wav" 7]] = [] := rfl
  exact ⟨h, by rw [h]; exact List.not_mem_nil _⟩

/-- C3 (amended): the flattening step moves exactly the files nested two
directory levels below the output directory (inside a track directory inside a
model directory) into the single output directory and removes every top-level
subdirectory; provided the involved file names are distinct, the result is the
top-level files followed by those depth-two files, and contains no
directories. -/
theorem claim_C3_flatten_two_levels (l : List Entry)
    (h : (fileNames l ++ (movedFiles l).map Prod.fst).Nodup) :
    run_demucs_flatten l
      = l.filter isFileB ++ (movedFiles l).map (fun p => Entry.file p.1 p.2)
    ∧ ∀ e ∈ run_demucs_flatten l, isFileB e = true := by
  constructor
  · unfold run_demucs_flatten
    apply foldl_setEntryFile_fresh
    rw [fileNames_filter]
    exact h
  · exact run_demucs_flatten_all_files l

/-- C3 witness: a demucs-shaped tree (model directory containing one track
directory containing two stems) plus a pre-existing top-level file flattens to
the flat listing of all three files. -/
theorem claim_C3_witness :
    run_demucs_flatten
        [Entry.file "top.txt" 9,
         Entry.dir "htdemucs" [Entry.dir "reference" [Entry.file "vocals.wav" 1,
           Entry.file "drums.wav" 2]]]
      = [Entry.file "top.txt" 9, Entry.file "vocals.wav" 1, Entry.file "drums.wav" 2] := by
  have h := claim_C3_flatten_two_levels
    [Entry.file "top.txt" 9,
     Entry.dir "htdemucs" [Entry.dir "reference" [Entry.file "vocals.wav" 1,
       Entry.file "drums.wav" 2]]]
    (by decide)
  rw [h.1]
  rfl

/-- C4: the align step (apad + atrim to the reference sample count, modelled
from the spec since the transcoder is an external tool) always yields exactly
`r` samples — the zero-padding of a shorter component and the truncation of a
longer one. -/
theorem claim_C4_alignment_exact (w : List Int) (r : Nat) :
    (alignSamples w r).length = r
    ∧ (w.length ≤ r → alignSamples w r = w ++ List.replicate (r - w.length) 0)
    ∧ (r ≤ w.length → alignSamples w r = w.take r) := by
  refine ⟨?_, ?_, ?_⟩
  · simp [alignSamples]
  · intro h
    rw [alignSamples, List.take_append_eq_append_take, List.take_of_length_le h,
      List.take_replicate]
    congr 2
    omega
  · intro h
    rw [alignSamples, List.take_append_of_le_length h]

/-- C4 witness: a 2-sample component aligned to 3 samples has exactly 3 samples
and is zero-padded; a 4-sample component aligned to 3 samples is truncated. -/
theorem claim_C4_witness :
    (alignSamples [1, 2] 3).length = 3
    ∧ alignSamples [1, 2] 3 = [1, 2] ++ List.replicate 1 0
    ∧ alignSamples [5, 6, 7, 8] 3 = [5, 6, 7, 8].take 3 :=
  ⟨(claim_C4_alignment_exact [1, 2] 3).1,
   (claim_C4_alignment_exact [1, 2] 3).2.1 (by decide),
   (claim_C4_alignment_exact [5, 6, 7, 8] 3).2.2 (by decide)⟩

/-- C9: flattening an already-flat output directory (regular files only)
changes nothing, and flattening is idempotent. -/
theorem claim_C9_flatten_idempotent (l : List Entry) :
    ((∀ e ∈ l, isFileB e = true) → run_demucs_flatten l = l)
    ∧ run_demucs_flatten (run_demucs_flatten l) = run_demucs_flatten l :=
  ⟨fun h => run_demucs_flatten_of_flat l h,
   run_demucs_flatten_of_flat _ (run_demucs_flatten_all_files l)⟩

/-- C9 witness: a flat two-file directory is left exactly as it is. -/
theorem claim_C9_witness :
    run_demucs_flatten [Entry.file "vocals.flac" 1, Entry.file "_metadata.json" 0]
      = [Entry.file "vocals.flac" 1, Entry.file "_metadata.json" 0] :=
  (claim_C9_flatten_idempotent
      [Entry.file "vocals.flac" 1, Entry.file "_metadata.json" 0]).1
    (by
      intro e he
      rcases List.mem_cons.mp he with h1 | h1
      · subst h1; rfl
      · rw [List.mem_singleton] at h1; subst h1; rfl)

/-- C10: address parsing errors exactly on the strings without the `gs://`
marker, with an empty bucket segment, or with a missing or empty key segment;
any well-formed `gs://bucket/key` with non-empty slash-free bucket and
non-empty key is split into that bucket and key; a well-formed address of a
different scheme such as `s3://bucket/key` is rejected. -/
theorem claim_C10_parse_characterization :
    (∀ a : String, (∃ m, parseGcsPath a = Except.error m) ↔ malformed_gcs a = true)
    ∧ (∀ b k : List Char, b ≠ [] → k ≠ [] → ('/' : Char) ∉ b →
        parseGcs (gsMarker ++ (b ++ '/' :: k)) = some (b, k))
    ∧ (∃ m, parseGcsPath "s3://bucket/key" = Except.error m)
    ∧ parseGcsPath "gs://bucket/key" = Except.ok ("bucket", "key") := by
  refine ⟨parseGcsPath_error_iff, parseGcs_wellformed,
    ⟨invalid_path_log "s3://bucket/key", ?_⟩, ?_⟩
  · rfl
  · rfl

/-- C10 witness: the single-character bucket and key address is accepted and
split; the malformed-address characterization evaluated at a bucketless
address. -/
theorem claim_C10_witness :
    parseGcs (gsMarker ++ (['b'] ++ '/' :: ['k'])) = some (['b'], ['k'])
    ∧ (∃ m, parseGcsPath "gs:///key" = Except.error m) :=
  ⟨claim_C10_parse_characterization.2.1 ['b'] ['k'] (by decide) (by decide) (by decide),
   (claim_C10_parse_characterization.1 "gs:///key").mpr (by decide)⟩

/-- C2: when the separation tool exits non-zero (the job having reached that
stage), the pipeline uploads nothing (the job's only network event is the one
download), increments `finished_jobs` once, leaves `started_jobs` at its
pre-job value, and the separation-failure log entry is in the log sequence. -/
theorem claim_C2_separation_failure (env : Env) (req : Request) (s : SysState)
    (b k : String)
    (hp : parseGcsPath req.mp3_path = Except.ok (b, k))
    (hd : env.downloadOk = true)
    (hc : env.decodeRc = 0)
    (hm : env.demucsRc ≠ 0) :
    (processRequest env req s).trace = s.trace ++ [Evt.netGet]
    ∧ (∀ bu bl, Evt.netPut bu bl ∈ (processRequest env req s).trace →
        Evt.netPut bu bl ∈ s.trace)
    ∧ (processRequest env req s).finished_jobs = s.finished_jobs + 1
    ∧ (processRequest env req s).started_jobs = s.started_jobs
    ∧ demucs_failed_log env.demucsRc env.demucsOut env.demucsErr
        ∈ (processRequest env req s).logs := by
  have hshape := rpp_demucs_fail env req b k hp hd hc hm
  have htr : (processRequest env req s).trace = s.trace ++ [Evt.netGet] := by
    rw [processRequest_trace, hshape]
  refine ⟨htr, ?_, processRequest_finished env req s, processRequest_started env req s, ?_⟩
  · intro bu bl hmem
    rw [htr] at hmem
    rcases List.mem_append.mp hmem with h1 | h1
    · exact h1
    · simp at h1
  · rw [processRequest_logs_error env req s _ (by rw [hshape]), hshape]
    simp

/-- C2 witness: the demucs-failure environment on a well-formed request from the
initial state. -/
theorem claim_C2_witness :
    (processRequest sampleEnvDemucsFail sampleReq initState).trace = [] ++ [Evt.netGet]
    ∧ (processRequest sampleEnvDemucsFail sampleReq initState).finished_jobs = 0 + 1
    ∧ (processRequest sampleEnvDemucsFail sampleReq initState).started_jobs = 0
    ∧ demucs_failed_log sampleEnvDemucsFail.demucsRc sampleEnvDemucsFail.demucsOut
        sampleEnvDemucsFail.demucsErr
        ∈ (processRequest sampleEnvDemucsFail sampleReq initState).logs := by
  have h := claim_C2_separation_failure sampleEnvDemucsFail sampleReq initState
    "bucket" "in.mp3" (by rfl) (by rfl) (by rfl) (by decide)
  exact ⟨h.1, h.2.2.1, h.2.2.2.1, h.2.2.2.2⟩

/-- C5: whatever the external world does, the detached execution absorbs every
stage error: `processRequest` is a total state transformer that always
increments `finished_jobs` exactly once, and whenever the pipeline body ends in
an error the log sequence receives the failure entry and the captured trace
text (which carries the error message); the acknowledgement returned to the
caller at acceptance is the empty response, independent of the pipeline's
fate. -/
theorem claim_C5_errors_absorbed (env : Env) (req : Request) (s : SysState) :
    (processRequest env req s).finished_jobs = s.finished_jobs + 1
    ∧ (∀ e, (runPipelinePure env req).outcome = Except.error e →
        "run_job.process.error" ∈ (processRequest env req s).logs
        ∧ tb_text e ∈ (processRequest env req s).logs
        ∧ tb_text e = "Traceback (most recent call last): " ++ e)
    ∧ (runJobAccept s).2 = Response.mk := by
  refine ⟨processRequest_finished env req s, ?_, rfl⟩
  intro e he
  rw [processRequest_logs_error env req s e he]
  refine ⟨?_, ?_, rfl⟩ <;> simp

/-- C5 witness: with the failing-demucs environment the pipeline outcome is an
error, and the process-level failure entries are in the logs. -/
theorem claim_C5_witness :
    "run_job.process.error" ∈ (processRequest sampleEnvDemucsFail sampleReq initState).logs
    ∧ tb_text (cpe_msg "demucs" 1)
        ∈ (processRequest sampleEnvDemucsFail sampleReq initState).logs := by
  have h := (claim_C5_errors_absorbed sampleEnvDemucsFail sampleReq initState).2.1
    (cpe_msg "demucs" 1) (by rfl)
  exact ⟨h.1, h.2.1⟩

/-- C6: a malformed blob address is rejected by the gateway's parsing before
any network event, and a pipeline execution handed such a source address
performs no network event at all (in particular uploads nothing) while still
recording the failure: `finished_jobs` increments and the AddressError log
entry is in the log sequence.  A well-formed source with a malformed
destination still uploads nothing. -/
theorem claim_C6_malformed_address :
    (∀ a : String, malformed_gcs a = true →
      parseGcsPath a = Except.error (invalid_path_log a))
    ∧ (∀ (env : Env) (req : Request) (s : SysState), malformed_gcs req.mp3_path = true →
        (processRequest env req s).trace = s.trace
        ∧ (processRequest env req s).finished_jobs = s.finished_jobs + 1
        ∧ invalid_path_log req.mp3_path ∈ (processRequest env req s).logs) := by
  refine ⟨parseGcsPath_error_of_malformed, ?_⟩
  intro env req s hbad
  have hp := parseGcsPath_error_of_malformed req.mp3_path hbad
  have hshape := rpp_parse_error env req _ hp
  refine ⟨?_, processRequest_finished env req s, ?_⟩
  · rw [processRequest_trace, hshape]
    simp
  · rw [processRequest_logs_error env req s _ (by rw [hshape]), hshape]
    simp

/-- C6 witness: the schemeless address `"nope"` is rejected with the logged
message, and a pipeline run on it performs no network event while recording the
failure from the initial state. -/
theorem claim_C6_witness :
    parseGcsPath "nope" = Except.error (invalid_path_log "nope")
    ∧ (processRequest sampleEnvOk sampleReqBad initState).trace = []
    ∧ (processRequest sampleEnvOk sampleReqBad initState).finished_jobs = 0 + 1
    ∧ invalid_path_log "nope" ∈ (processRequest sampleEnvOk sampleReqBad initState).logs := by
  have h1 := claim_C6_malformed_address.1 "nope" (by decide)
  have h2 := claim_C6_malformed_address.2 sampleEnvOk sampleReqBad initState (by decide)
  exact ⟨h1, h2.1, h2.2.1, h2.2.2⟩

/-- C7: the job's private scratch directory does not survive the execution —
after `processRequest` returns, the freshly allocated temporary directory is
gone, and the set of live scratch directories is exactly what it was before the
job. -/
theorem claim_C7_scratch_removed (env : Env) (req : Request) (s : SysState) :
    s.nextTmp ∉ (processRequest env req s).scratchDirs
    ∧ (s.nextTmp ∉ s.scratchDirs →
        (processRequest env req s).scratchDirs = s.scratchDirs) := by
  rw [processRequest_scratch]
  constructor
  · intro hmem
    have := (List.mem_filter.mp hmem).2
    simp at this
  · intro hfresh
    rw [List.filter_cons]
    simp only [bne_self_eq_false]
    rw [if_neg (by simp)]
    apply List.filter_eq_self.mpr
    intro d hd
    have : d ≠ s.nextTmp := fun h => hfresh (h ▸ hd)
    simpa using this

/-- C7 witness: from the initial state (scratch id 0 fresh), the scratch
directory set is empty again after a successful run. -/
theorem claim_C7_witness :
    (0 : Nat) ∉ (processRequest sampleEnvOk sampleReq initState).scratchDirs
    ∧ (processRequest sampleEnvOk sampleReq initState).scratchDirs = [] := by
  have h := claim_C7_scratch_removed sampleEnvOk sampleReq initState
  exact ⟨h.1, h.2 (by decide)⟩

/-- C8: in every pipeline execution the metadata document is written at most
once; it is written exactly when every prior stage (address parse, download,
decode, separation, align+encode) succeeded — so a job failing before the
metadata stage produces no metadata document; and whenever it is written, it is
written before any upload event of the job. -/
theorem claim_C8_metadata_once_before_upload (env : Env) (req : Request) :
    (runPipelinePure env req).events.count Evt.metaWrite ≤ 1
    ∧ ((runPipelinePure env req).events.count Evt.metaWrite = 1 ↔
        ((∃ bk, parseGcsPath req.mp3_path = Except.ok bk)
          ∧ env.downloadOk = true ∧ env.decodeRc = 0 ∧ env.demucsRc = 0
          ∧ ∃ d, (align_and_encode env (run_demucs_flatten env.demucsTree) 0).2
              = Except.ok d))
    ∧ (∀ pre post, (runPipelinePure env req).events = pre ++ Evt.metaWrite :: post →
        ∀ bu bl, Evt.netPut bu bl ∉ pre) := by
  rcases hp : parseGcsPath req.mp3_path with m | ⟨b, k⟩
  · rw [rpp_parse_error env req m hp]
    exact ⟨by simp, by simp [hp], no_meta_decomp [] (by simp)⟩
  · cases hd : env.downloadOk with
    | false =>
      rw [rpp_download_fail env req b k hp hd]
      exact ⟨by simp, by simp [hd], no_meta_decomp [Evt.netGet] (by simp)⟩
    | true =>
      by_cases hc : env.decodeRc = 0
      · by_cases hm : env.demucsRc = 0
        · rw [rpp_demucs_ok env req b k hp hd hc hm]
          rcases ha : align_and_encode env (run_demucs_flatten env.demucsTree) 0
            with ⟨als, ares⟩
          cases ares with
          | error e =>
            have ht : pipeline_tail env req (run_demucs_flatten env.demucsTree)
                = { logs := als, events := [], outcome := Except.error e, finalDir := [] } := by
              unfold pipeline_tail
              rw [ha]
            rw [ht]
            refine ⟨by simp, by simp [hp, hd, hc, hm, ha], no_meta_decomp [Evt.netGet] (by simp)⟩
          | ok d1 =>
            have hnm := upload_phase_no_meta env req (setEntryFile d1 "_metadata.json" 0)
            have ht : pipeline_tail env req (run_demucs_flatten env.demucsTree)
                = { logs := als ++ metadata_written_log env.duration env.wavFrames env.wavRate
                      :: (upload_phase env req (setEntryFile d1 "_metadata.json" 0)).logs,
                    events := Evt.metaWrite
                      :: (upload_phase env req (setEntryFile d1 "_metadata.json" 0)).events,
                    outcome := (upload_phase env req (setEntryFile d1 "_metadata.json" 0)).outcome,
                    finalDir := (upload_phase env req
                      (setEntryFile d1 "_metadata.json" 0)).finalDir } := by
              unfold pipeline_tail
              rw [ha]
            rw [ht]
            have hcnt : (Evt.netGet :: Evt.metaWrite
                :: (upload_phase env req (setEntryFile d1 "_metadata.json" 0)).events).count
                  Evt.metaWrite = 1 := by
              simp [List.count_cons, List.count_eq_zero.mpr hnm]
            refine ⟨by rw [hcnt], ?_, ?_⟩
            · constructor
              · intro _
                exact ⟨⟨(b, k), rfl⟩, rfl, hc, hm, ⟨d1, rfl⟩⟩
              · intro _
                exact hcnt
            · exact meta_head_decomp _ hnm
        · rw [rpp_demucs_fail env req b k hp hd hc hm]
          exact ⟨by simp, by simp [hm], no_meta_decomp [Evt.netGet] (by simp)⟩
      · rw [rpp_decode_fail env req b k hp hd hc]
        exact ⟨by simp, by simp [hc], no_meta_decomp [Evt.netGet] (by simp)⟩

/-- C8 witness: with a fully successful environment on a request whose
destination address is malformed, the pipeline still writes metadata exactly
once, after the single download and before anything else; no upload precedes
the metadata write. -/
theorem claim_C8_witness :
    (runPipelinePure sampleEnvOk sampleReqBadOut).events.count Evt.metaWrite = 1
    ∧ Evt.netPut "bucket" "out/_metadata.json" ∉ [Evt.netGet] := by
  constructor
  · exact (claim_C8_metadata_once_before_upload sampleEnvOk sampleReqBadOut).2.1.mpr
      ⟨⟨("bucket", "in.mp3"), rfl⟩, rfl, rfl, rfl, ⟨[], rfl⟩⟩
  · exact (claim_C8_metadata_once_before_upload sampleEnvOk sampleReqBadOut).2.2
      [Evt.netGet] [] (by rfl) "bucket" "out/_metadata.json"

/-- C1: under the system's lifecycle — every accepted job marks itself started
exactly once at acceptance and finished exactly once when its pipeline ends,
never finishing before its own acceptance — every reachable tracker state
(after any prefix of the interleaved operation sequence) satisfies
`finished_jobs ≤ started_jobs`; no tracker operation decreases either counter;
and one full job run increments each counter exactly once. -/
theorem claim_C1_counters_invariant :
    (∀ t, ValidLifecycle t → ∀ n,
      (trackerOf (t.take n)).finished_jobs ≤ (trackerOf (t.take n)).started_jobs)
    ∧ (∀ (s : RunJobState) (e : JobEvt),
        s.started_jobs ≤ (applyEvt s e).started_jobs
        ∧ s.finished_jobs ≤ (applyEvt s e).finished_jobs)
    ∧ (∀ (env : Env) (req : Request) (s : SysState),
        (runJobFull env req s).started_jobs = s.started_jobs + 1
        ∧ (runJobFull env req s).finished_jobs = s.finished_jobs + 1) := by
  refine ⟨?_, ?_, ?_⟩
  · intro t hv n
    obtain ⟨hs1, hf1, hord⟩ := hv
    have hc : ∀ j, (t.take n).count (JobEvt.finish j) ≤ 1 := fun j =>
      le_trans ((List.take_sublist n t).count_le _) (hf1 j)
    have hnd : (finishIds (t.take n)).Nodup :=
      List.nodup_iff_count_le_one.mpr (fun j => by rw [count_finishIds]; exact hc j)
    have hsub : finishIds (t.take n) ⊆ startIds (t.take n) := by
      intro j hj
      exact (mem_startIds _ j).mpr (hord n j ((mem_finishIds _ j).mp hj))
    have hlen : (finishIds (t.take n)).length ≤ (startIds (t.take n)).length :=
      (List.subperm_of_subset hnd hsub).length_le
    unfold trackerOf
    rw [foldl_applyEvt_finished, foldl_applyEvt_started]
    simpa [RunJobState.init] using hlen
  · intro s e
    cases e <;> constructor <;>
      simp [applyEvt, RunJobState.mark_started, RunJobState.mark_finished, RunJobState.log]
  · intro env req s
    have h1 : (runJobAccept s).1.started_jobs = s.started_jobs + 1 := by
      simp [runJobAccept, SysState.mark_started, SysState.log]
    have h2 : (runJobAccept s).1.finished_jobs = s.finished_jobs := by
      simp [runJobAccept, SysState.mark_started, SysState.log]
    unfold runJobFull
    rw [processRequest_started, processRequest_finished, h1, h2]
    exact ⟨rfl, rfl⟩

/-- C1 witness: the two-operation interleaving in which job 0 is accepted and
then finishes is a valid lifecycle, and the tracker state it reaches satisfies
the counter invariant. -/
theorem claim_C1_witness :
    (trackerOf ([JobEvt.start 0, JobEvt.finish 0].take 2)).finished_jobs
      ≤ (trackerOf ([JobEvt.start 0, JobEvt.finish 0].take 2)).started_jobs := by
  apply claim_C1_counters_invariant.1 [JobEvt.start 0, JobEvt.finish 0] ?_ 2
  refine ⟨?_, ?_, ?_⟩
  · intro j
    by_cases h : j = 0 <;> simp [h, List.count_cons]
  · intro j
    by_cases h : j = 0 <;> simp [h, List.count_cons]
  · intro n j hmem
    cases n with
    | zero => simp at hmem
    | succ n1 =>
      cases n1 with
      | zero => simp [List.take] at hmem
      | succ n2 =>
        simp [List.take] at hmem ⊢
        simp [hmem]
